import Mathlib

/-!
Verification of the XFA template field walker (`scripts/extract-xfa-fields.py`,
`extract_fields.walk`) and the XFA dataset merger (`scripts/fill-xfa-pdf.py` and
`services/pdf-service/main.py`, `fill_xfa_pdf`).  The XML trees handled by both
are modelled as a rose tree of elements carrying a tag, a `name` attribute (the
only attribute either function reads), optional text content and a child list.
String primitives of the host language (`str.split`, `str.strip`,
`re.match` on the safe-name pattern) are modelled over the character list of
the string so that every definition evaluates inside the kernel.
-/

namespace Xfa

/-- Auxiliary splitter: accumulates the current chunk (reversed) and cuts at
every occurrence of the separator character, as Python `str.split(sep)` does
for a one-character separator. -/
def splitOnCharAux (c : Char) : List Char → List Char → List (List Char)
  | [], acc => [acc.reverse]
  | x :: xs, acc =>
    if x = c then acc.reverse :: splitOnCharAux c xs [] else splitOnCharAux c xs (x :: acc)

/-- Split a character list at every occurrence of `c`.  Like Python
`split`, the result is never empty, and an empty input yields `[[]]`. -/
def splitOnChar (c : Char) (l : List Char) : List (List Char) := splitOnCharAux c l []

/-- Python `field_path.split(".")` (fill-xfa-pdf.py line 78, main.py line 147). -/
def pySplitDot (s : String) : List String := (splitOnChar '.' s.data).map (fun l => ⟨l⟩)

/-- Python `element.tag.split("\x7d")[-1]` (extract-xfa-fields.py line 54):
strip the `\x7bnamespace\x7d` prefix from an ElementTree tag.  Taking the last
chunk of the split also covers the no-brace case, exactly as `[-1]` does. -/
def localTag (t : String) : String := ⟨(splitOnChar '\x7d' t.data).getLastD t.data⟩

/-- Whitespace stripped by Python `str.strip()` (the ASCII cases). -/
def isPyWhitespace (c : Char) : Bool :=
  c == ' ' || c == '\t' || c == '\n' || c == '\r' || c == '\x0b' || c == '\x0c'

/-- Python `str.strip()`. -/
def pyStrip (s : String) : String :=
  ⟨((s.data.dropWhile isPyWhitespace).reverse.dropWhile isPyWhitespace).reverse⟩

/-- A character admitted after the first position by the safe-name pattern
`[a-zA-Z0-9_]` (fill-xfa-pdf.py line 19, main.py line 58). -/
def safeTailChar (c : Char) : Bool := c.isAlpha || c.isDigit || c == '_'

/-- Pure anchored match of the regular expression `[a-zA-Z][a-zA-Z0-9_]*`
against the whole character list. -/
def matchesSafe : List Char → Bool
  | [] => false
  | c :: cs => c.isAlpha && cs.all safeTailChar

/-- Python `SAFE_FIELD_PART.match(s)` as a Boolean (fill-xfa-pdf.py line 82,
main.py line 150).  `re.match` anchors at the start, and the `$` in the
pattern `^[a-zA-Z][a-zA-Z0-9_]*$` matches at the end of the string or just
before a single newline that ends the string, so a part consisting of a safe
name followed by one `'\n'` is also accepted by the code. -/
def safeFieldPartMatch (s : String) : Bool :=
  matchesSafe s.data ||
    (match s.data.getLast? with
     | some c => c == '\n' && matchesSafe s.data.dropLast
     | none => false)

/-- An XML element as read by both scripts: its (namespace-qualified) tag, its
`name` attribute (`element.get("name", "")` — the empty string when absent),
its text content (`element.text`, `none` when absent) and its child elements
in document order. -/
inductive XElem where
  | mk (tag : String) (nameAttr : String) (text : Option String) (children : List XElem)

/-- The element's namespace-qualified tag. -/
def XElem.tag : XElem → String
  | .mk t _ _ _ => t

/-- The element's `name` attribute, `""` when absent. -/
def XElem.nameAttr : XElem → String
  | .mk _ n _ _ => n

/-- The element's text content, `none` when absent. -/
def XElem.text : XElem → Option String
  | .mk _ _ x _ => x

/-- The element's children in document order. -/
def XElem.children : XElem → List XElem
  | .mk _ _ _ c => c

/-- The XFA template namespace used by `extract-xfa-fields.py` (line 48),
in ElementTree's `\x7buri\x7dlocal` qualified-tag form. -/
def tNS : String := "\x7bhttp://www.xfa.org/schema/xfa-template/3.3/\x7d"

/-- Python `element.findall("t:" + n, ns)`: the direct children whose
qualified tag is the template namespace followed by `n`, in document order. -/
def findallT (e : XElem) (n : String) : List XElem :=
  e.children.filter (fun c => c.tag == tNS ++ n)

/-- The widget-tag-to-field-type table of the `if/elif` chain in
`extract-xfa-fields.py` lines 66-81; `none` for unrecognized tags. -/
def widgetKind : String → Option String
  | "checkButton" => some "checkbox"
  | "choiceList" => some "dropdown"
  | "dateTimeEdit" => some "date"
  | "numericEdit" => some "numeric"
  | "textEdit" => some "text"
  | "imageEdit" => some "image"
  | "signatureEdit" => some "signature"
  | "barcode" => some "barcode"
  | _ => none

/-- The `field_type` computation of `extract-xfa-fields.py` lines 61-81:
start from `"text"` and, for every child of every `ui` child in document
order, overwrite the accumulator whenever the child's namespace-stripped tag
is a recognized widget tag. -/
def resolveType (e : XElem) : String :=
  (findallT e "ui").foldl
    (fun acc ui =>
      ui.children.foldl (fun acc2 c => (widgetKind (localTag c.tag)).getD acc2) acc)
    "text"

/-- The contribution of one `text`-like element to a caption/tooltip/options
accumulator: its stripped text when the raw text is present and non-empty
(Python truthiness of `text.text` / `item.text` / `tip.text`), else nothing. -/
def textCand (c : XElem) : Option String :=
  match c.text with
  | none => none
  | some s => if s = "" then none else some (pyStrip s)

/-- The `caption` computation of `extract-xfa-fields.py` lines 84-89: loop
over `caption` children, their `value` children, their `text` children, and
overwrite the accumulator with the stripped text whenever the raw text is
truthy. -/
def captionOf (e : XElem) : String :=
  (findallT e "caption").foldl
    (fun acc cap =>
      (findallT cap "value").foldl
        (fun acc2 val =>
          (findallT val "text").foldl (fun acc3 txt => (textCand txt).getD acc3) acc2)
        acc)
    ""

/-- The `tooltip` computation of `extract-xfa-fields.py` lines 92-96: loop
over `assist` children and their `toolTip` children, overwriting the
accumulator with the stripped text whenever the raw text is truthy. -/
def tooltipOf (e : XElem) : String :=
  (findallT e "assist").foldl
    (fun acc assist =>
      (findallT assist "toolTip").foldl (fun acc2 tip => (textCand tip).getD acc2) acc)
    ""

/-- The `options` computation of `extract-xfa-fields.py` lines 99-103: for
every `items` child, append the stripped text of every element child whose
raw text is truthy. -/
def optionsOf (e : XElem) : List String :=
  (findallT e "items").foldl
    (fun acc items =>
      items.children.foldl (fun acc2 item => acc2 ++ (textCand item).toList) acc)
    []

/-- The `radio_options` computation of `extract-xfa-fields.py` lines 117-126:
for every `field` child of the `exclGroup`, first append every truthy `items`
descendant text (stripped), then append the child field's own name when it is
non-empty. -/
def radioOptionsOf (e : XElem) : List String :=
  (findallT e "field").foldl
    (fun acc cf =>
      let acc2 :=
        (findallT cf "items").foldl
          (fun a its =>
            its.children.foldl (fun a2 item => a2 ++ (textCand item).toList) a)
          acc
      if cf.nameAttr = "" then acc2 else acc2 ++ [cf.nameAttr])
    []

/-- One entry of the list returned by `extract_fields` (lines 105-112 and
128-135 of `extract-xfa-fields.py`). -/
structure FieldDesc where
  name : String
  xfa_name : String
  type : String
  caption : String
  tooltip : String
  options : Option (List String)
deriving DecidableEq

/-- The `current_path` computation of `extract-xfa-fields.py` line 57:
`f"\x7bpath\x7d.\x7bname\x7d" if path and name else (name or path)`. -/
def curPath (path : String) (e : XElem) : String :=
  if path ≠ "" ∧ e.nameAttr ≠ "" then path ++ "." ++ e.nameAttr
  else if e.nameAttr ≠ "" then e.nameAttr else path

/-- The descriptor appended for a `field` node (lines 105-112). -/
def fieldDescOf (e : XElem) (cur : String) : FieldDesc :=
  { name := cur
    xfa_name := e.nameAttr
    type := resolveType e
    caption := captionOf e
    tooltip := tooltipOf e
    options := if optionsOf e = [] then none else some (optionsOf e) }

/-- The descriptor appended for an `exclGroup` node (lines 128-135). -/
def radioDescOf (e : XElem) (cur : String) : FieldDesc :=
  { name := cur
    xfa_name := e.nameAttr
    type := "radio"
    caption := ""
    tooltip := ""
    options := if radioOptionsOf e = [] then none else some (radioOptionsOf e) }

/-- The descriptors appended at one node by the tag dispatch of `walk`
(lines 60, 115): one field descriptor for a `field` node, one radio
descriptor for an `exclGroup` node, nothing otherwise. -/
def descsAt (e : XElem) (cur : String) : List FieldDesc :=
  if localTag e.tag = "field" then [fieldDescOf e cur]
  else if localTag e.tag = "exclGroup" then [radioDescOf e cur]
  else []

mutual

/-- The recursive `walk(element, path)` of `extract-xfa-fields.py`
lines 53-139: dispatch on the current node's namespace-stripped tag, then
recurse into every child with `current_path` as the new parent path.  The
returned list is the sequence of descriptors appended to `fields`, in
append order (pre-order). -/
def walkE : XElem → String → List FieldDesc
  | .mk t n x c, path =>
    descsAt (.mk t n x c) (curPath path (.mk t n x c)) ++
      walkL c (curPath path (.mk t n x c))

/-- `walk` applied to a list of sibling elements in document order
(the `for child in element` loop of lines 138-139). -/
def walkL (es : List XElem) (path : String) : List FieldDesc :=
  match es with
  | [] => []
  | e :: rest => walkE e path ++ walkL rest path

end

/-- `extract_fields`: walk the parsed template root with the empty parent
path (line 141). -/
def extract_fields (root : XElem) : List FieldDesc := walkE root ""

/-- One `(field_path, value)` entry of the update map; the value is `none`
when the JSON value is `null` (Python `None`). -/
abbrev Entry := String × Option String

/-- One navigate-or-create step on a child list: apply `go` to the first
child whose tag is exactly `p` (Python `current.find(part)` returns the
first match and the loop then continues below it), leaving every other
child untouched; when no child matches, append `fresh` as the last child
(`ET.SubElement` appends). -/
def findOrSet (p : String) (go : XElem → XElem) (fresh : XElem) : List XElem → List XElem
  | [] => [fresh]
  | c :: cs => if c.tag == p then go c :: cs else c :: findOrSet p go fresh cs

/-- The navigate-or-create descent of `fill_xfa_pdf` (fill-xfa-pdf.py
lines 90-97, main.py lines 154-160): for each path part, `current.find(part)`
returns the first child whose tag is exactly `part`; if none exists a new
child with that tag is appended as the last child (`ET.SubElement`); after
the last part, the reached node's text is set to the value. -/
def setPath (e : XElem) : List String → String → XElem
  | [], v => .mk e.tag e.nameAttr (some v) e.children
  | p :: rest, v =>
    .mk e.tag e.nameAttr e.text
      (findOrSet p (fun c => setPath c rest v) (setPath (.mk p "" none []) rest v)
        e.children)

/-- The mutable state of the fill loop: the `data` node of the datasets tree,
the `filled` counter and the `errors` list. -/
structure FillResult where
  tree : XElem
  filled : Nat
  errors : List String

/-- The body of the `for field_path, value in field_data.items()` loop of
`fill_xfa_pdf` (fill-xfa-pdf.py lines 72-98, main.py lines 142-161): skip
entries with absent or empty values; validate every dot-separated part
against the safe-name pattern, recording an error and touching nothing on
failure; otherwise navigate/create the path, set the leaf text and count the
entry as filled. -/
def fillStep (r : FillResult) (entry : Entry) : FillResult :=
  match entry.2 with
  | none => r
  | some v =>
    if v = "" then r
    else
      let parts := pySplitDot entry.1
      if parts.all safeFieldPartMatch then
        { tree := setPath r.tree parts v, filled := r.filled + 1, errors := r.errors }
      else
        { tree := r.tree, filled := r.filled,
          errors := r.errors ++ [entry.1 ++ ": invalid field path characters"] }

/-- The whole fill loop over the update entries in iteration order, starting
from the parsed `data` node with `filled = 0` and no errors. -/
def fillUpdates (data_node : XElem) (updates : List Entry) : FillResult :=
  updates.foldl fillStep { tree := data_node, filled := 0, errors := [] }

/-- `total` of the returned stats: `len(field_data)` (fill-xfa-pdf.py
line 119, main.py line 195), counted whatever happened to each entry. -/
def totalOf (updates : List Entry) : Nat := updates.length

/-- XML text-content escaping performed by `ET.tostring` on serialization. -/
def escapeText (s : String) : String :=
  ⟨s.data.flatMap (fun c =>
    if c = '&' then "&amp;".data
    else if c = '<' then "&lt;".data
    else if c = '>' then "&gt;".data
    else [c])⟩

/-- XML attribute-value escaping performed by `ET.tostring`. -/
def escapeAttrib (s : String) : String :=
  ⟨s.data.flatMap (fun c =>
    if c = '&' then "&amp;".data
    else if c = '<' then "&lt;".data
    else if c = '>' then "&gt;".data
    else if c = '"' then "&quot;".data
    else [c])⟩

/-- The flattened list of recognized widget kinds under the `ui` children of
a field, in document order: the overwrite loop of lines 63-81 leaves the
last of these (or `"text"` when there is none). -/
def uiWidgetKinds (e : XElem) : List String :=
  (findallT e "ui").flatMap
    (fun ui => ui.children.filterMap (fun c => widgetKind (localTag c.tag)))

/-- Modelled from the claim's words for comparison: the kind given by the
*first* matching widget tag found under a `ui` child, `"text"` when none. -/
def specFirstWidgetKind (e : XElem) : String := (uiWidgetKinds e).headD "text"

/-- The flattened list of truthy `caption/value/text` descendant texts of a
field, stripped, in document order. -/
def capCands (e : XElem) : List String :=
  (findallT e "caption").flatMap
    (fun cap =>
      (findallT cap "value").flatMap
        (fun val => (findallT val "text").filterMap textCand))

/-- Modelled from the claim's words for comparison: the *first* non-empty
`caption/value/text` descendant text, trimmed, `""` when absent. -/
def specFirstCaption (e : XElem) : String := (capCands e).headD ""

/-- The flattened list of truthy `assist/toolTip` texts of a field, stripped,
in document order. -/
def tipCands (e : XElem) : List String :=
  (findallT e "assist").flatMap
    (fun assist => (findallT assist "toolTip").filterMap textCand)

/-- The flattened list of truthy `items` descendant texts of an element,
stripped, in document order. -/
def itemsTextsOf (e : XElem) : List String :=
  (findallT e "items").flatMap (fun its => its.children.filterMap textCand)

/-- The radio option list as the spec describes it: for each immediate
`field` child in document order, its `items` descendant texts followed by
its own name when non-empty. -/
def specRadioOptions (e : XElem) : List String :=
  (findallT e "field").flatMap
    (fun cf => itemsTextsOf cf ++ (if cf.nameAttr = "" then [] else [cf.nameAttr]))

/-- The node reached from `e` by taking the `i`-th child at each step, if
every index is in range. -/
def nodeAt? : XElem → List Nat → Option XElem
  | e, [] => some e
  | e, i :: rest =>
    match e.children[i]? with
    | some c => nodeAt? c rest
    | none => none

mutual

/-- The tree with every node's text removed: the purely structural part of
an element, used to state that the merger does not reshape an existing
tree. -/
def shape : XElem → XElem
  | .mk t n _ c => .mk t n none (shapeL c)

/-- `shape` applied to a child list. -/
def shapeL : List XElem → List XElem
  | [] => []
  | e :: es => shape e :: shapeL es

end

/-- The index of the first child whose tag is exactly `p`, if any — the
position at which Python `current.find(part)` finds its result. -/
def firstIdx? (p : String) : List XElem → Option Nat
  | [] => none
  | c :: cs => if c.tag == p then some 0 else (firstIdx? p cs).map (· + 1)

/-- Whether the descent of `setPath` finds an existing child at every
segment (so that no node is created). -/
def pathExists : XElem → List String → Bool
  | _, [] => true
  | e, p :: rest =>
    match firstIdx? p e.children with
    | some i => pathExists (e.children.getD i (.mk "" "" none [])) rest
    | none => false

/-- The child-index path along which `setPath` descends: the index of the
first child with the matching tag, or the index at which the missing child
gets appended. -/
def idxPath : XElem → List String → List Nat
  | _, [] => []
  | e, p :: rest =>
    match firstIdx? p e.children with
    | some i => i :: idxPath (e.children.getD i (.mk "" "" none [])) rest
    | none => e.children.length :: idxPath (.mk p "" none []) rest

mutual

/-- `true` when no node of the subtree has local tag `field` or `exclGroup`,
so the walker emits no descriptor anywhere inside it. -/
def subtreeNoEmit : XElem → Bool
  | .mk t _ _ c => localTag t != "field" && localTag t != "exclGroup" && childrenNoEmit c

/-- `subtreeNoEmit` over a child list. -/
def childrenNoEmit : List XElem → Bool
  | [] => true
  | e :: es => subtreeNoEmit e && childrenNoEmit es

end

/-- A well-behaved immediate child of an `exclGroup` for counting purposes:
either a template-namespace `field` element, or an element that is neither a
field nor a group; in both cases nothing strictly below the child may be a
field or group node. -/
def radioChildOk (c : XElem) : Bool :=
  (c.tag == tNS ++ "field" || (localTag c.tag != "field" && localTag c.tag != "exclGroup"))
    && childrenNoEmit c.children

mutual

/-- `ET.tostring(element, encoding="unicode", xml_declaration=False)`
restricted to the modelled element contents: the start tag with the `name`
attribute when present, the escaped text, the serialized children, and the
end tag; a childless, textless element is written self-closed, as
ElementTree writes it. -/
def serializeElem (e : XElem) : String :=
  match e with
  | .mk t n x c =>
    let attrs := if n = "" then "" else " name=\"" ++ escapeAttrib n ++ "\""
    match x, c with
    | none, [] => "<" ++ t ++ attrs ++ " />"
    | _, _ =>
        "<" ++ t ++ attrs ++ ">" ++
          (match x with | some s => escapeText s | none => "") ++
          serializeList c ++ "</" ++ t ++ ">"

/-- Serialization of a child list in document order. -/
def serializeList : List XElem → String
  | [] => ""
  | e :: es => serializeElem e ++ serializeList es

end

/-- The XFA data namespace of the datasets tree (fill-xfa-pdf.py line 61),
in ElementTree's qualified-tag form. -/
def dNS : String := "\x7bhttp://www.xfa.org/schema/xfa-data/1.0/\x7d"

/-- An empty datasets `data` node: no children yet. -/
def emptyData : XElem := .mk (dNS ++ "data") "" none []

/-- A `field` element whose single `ui` child holds two recognized widget
tags, `checkButton` first and `textEdit` second. -/
def twoWidgetField : XElem :=
  .mk (tNS ++ "field") "F1" none
    [.mk (tNS ++ "ui") "" none
      [.mk (tNS ++ "checkButton") "" none [],
       .mk (tNS ++ "textEdit") "" none []]]

/-- A `field` element whose single `ui` child holds one `textEdit` widget. -/
def oneWidgetField : XElem :=
  .mk (tNS ++ "field") "G1" none
    [.mk (tNS ++ "ui") "" none [.mk (tNS ++ "textEdit") "" none []]]

/-- A `field` element whose caption holds two `value/text` descendants with
texts `"A"` and `"B"`, in that order. -/
def twoCaptionField : XElem :=
  .mk (tNS ++ "field") "C1" none
    [.mk (tNS ++ "caption") "" none
      [.mk (tNS ++ "value") "" none
        [.mk (tNS ++ "text") "" (some "A") [],
         .mk (tNS ++ "text") "" (some "B") []]]]

/-- The `exclGroup` of the spec's example: named `"Sex"`, with child fields
`"Male"` (items text `"M"`) and `"Female"` (items text `"F"`). -/
def sexGroup : XElem :=
  .mk (tNS ++ "exclGroup") "Sex" none
    [.mk (tNS ++ "field") "Male" none
       [.mk (tNS ++ "items") "" none [.mk (tNS ++ "text") "" (some "M") []]],
     .mk (tNS ++ "field") "Female" none
       [.mk (tNS ++ "items") "" none [.mk (tNS ++ "text") "" (some "F") []]]]

/-- An `exclGroup` with a single `field` child that itself contains a nested
`field` element. -/
def nestedFieldGroup : XElem :=
  .mk (tNS ++ "exclGroup") "Grp" none
    [.mk (tNS ++ "field") "Outer" none
       [.mk (tNS ++ "field") "Inner" none []]]

/-- An `exclGroup` named `"Filing"` with two plain field children whose
subtrees contain no further field or group nodes. -/
def filingGroup : XElem :=
  .mk (tNS ++ "exclGroup") "Filing" none
    [.mk (tNS ++ "field") "Single" none
       [.mk (tNS ++ "items") "" none [.mk (tNS ++ "text") "" (some "S") []]],
     .mk (tNS ++ "field") "Joint" none []]

theorem getLastD_append {α : Type} (l₁ l₂ : List α) (a : α) :
    (l₁ ++ l₂).getLastD a = l₂.getLastD (l₁.getLastD a) := by
  induction l₁ generalizing a with
  | nil => rfl
  | cons x xs ih => rw [List.cons_append, List.getLastD_cons, ih, List.getLastD_cons]

theorem foldl_overwrite {α β : Type} (f : α → Option β) (l : List α) (a : β) :
    l.foldl (fun acc x => (f x).getD acc) a = (l.filterMap f).getLastD a := by
  induction l generalizing a with
  | nil => rfl
  | cons x xs ih =>
    simp only [List.foldl_cons, List.filterMap_cons]
    cases h : f x with
    | none => simp only [Option.getD_none]; exact ih a
    | some b => simp only [Option.getD_some, List.getLastD_cons]; exact ih b

theorem getLastD_filterMap_getLast {α β : Type} (F : α → List β) (l : List α) (a : β) :
    (l.filterMap (fun x => (F x).getLast?)).getLastD a = (l.flatMap F).getLastD a := by
  induction l generalizing a with
  | nil => rfl
  | cons x xs ih =>
    have hfx : (F x).getLastD a = (F x).getLast?.getD a := List.getLastD_eq_getLast? a (F x)
    rw [List.flatMap_cons, getLastD_append, hfx]
    simp only [List.filterMap_cons]
    cases h : (F x).getLast? with
    | none => simp only [Option.getD_none]; exact ih a
    | some b => simp only [Option.getD_some, List.getLastD_cons]; exact ih b

theorem foldl_append_flat {α β : Type} (g : α → List β) (l : List α) (a : List β) :
    l.foldl (fun acc x => acc ++ g x) a = a ++ l.flatMap g := by
  induction l generalizing a with
  | nil => simp
  | cons x xs ih => rw [List.foldl_cons, ih, List.flatMap_cons, List.append_assoc]

theorem foldl_append_opt {α β : Type} (f : α → Option β) (l : List α) (a : List β) :
    l.foldl (fun acc x => acc ++ (f x).toList) a = a ++ l.filterMap f := by
  induction l generalizing a with
  | nil => simp
  | cons x xs ih =>
    simp only [List.foldl_cons, List.filterMap_cons]
    cases h : f x with
    | none => rw [ih]; simp
    | some b => rw [ih, List.append_assoc]; simp

theorem foldl_overwrite_flat {α β γ : Type} (f : γ → Option β) (inner : α → List γ)
    (l : List α) (a : β) :
    l.foldl (fun acc x => (inner x).foldl (fun a2 y => (f y).getD a2) acc) a
      = (l.flatMap (fun x => (inner x).filterMap f)).getLastD a := by
  have h : (fun (acc : β) (x : α) => (inner x).foldl (fun a2 y => (f y).getD a2) acc)
      = fun acc x => (((inner x).filterMap f).getLast?).getD acc := by
    funext acc x
    rw [foldl_overwrite, List.getLastD_eq_getLast?]
  rw [h]
  rw [foldl_overwrite (fun x => ((inner x).filterMap f).getLast?) l a]
  exact getLastD_filterMap_getLast _ l a

theorem resolveType_eq (e : XElem) :
    resolveType e = (uiWidgetKinds e).getLastD "text" := by
  unfold resolveType uiWidgetKinds
  exact foldl_overwrite_flat _ _ _ _

theorem tooltipOf_eq (e : XElem) : tooltipOf e = (tipCands e).getLastD "" := by
  unfold tooltipOf tipCands
  exact foldl_overwrite_flat _ _ _ _

theorem captionOf_eq (e : XElem) : captionOf e = (capCands e).getLastD "" := by
  unfold captionOf capCands
  have h : (fun (acc : String) (cap : XElem) =>
        (findallT cap "value").foldl
          (fun acc2 val =>
            (findallT val "text").foldl (fun acc3 txt => (textCand txt).getD acc3) acc2)
          acc)
      = fun acc cap =>
          (((findallT cap "value").flatMap
            (fun val => (findallT val "text").filterMap textCand)).getLast?).getD acc := by
    funext acc cap
    rw [foldl_overwrite_flat, List.getLastD_eq_getLast?]
  rw [h]
  rw [foldl_overwrite
    (fun cap => ((findallT cap "value").flatMap
      (fun val => (findallT val "text").filterMap textCand)).getLast?)]
  exact getLastD_filterMap_getLast _ _ _

theorem optionsOf_eq (e : XElem) : optionsOf e = itemsTextsOf e := by
  unfold optionsOf itemsTextsOf
  have h : (fun (acc : List String) (items : XElem) =>
        items.children.foldl (fun acc2 item => acc2 ++ (textCand item).toList) acc)
      = fun acc items => acc ++ items.children.filterMap textCand := by
    funext acc items
    rw [foldl_append_opt]
  rw [h, foldl_append_flat]
  rfl

theorem radioOptionsOf_eq (e : XElem) : radioOptionsOf e = specRadioOptions e := by
  unfold radioOptionsOf specRadioOptions
  have h : (fun (acc : List String) (cf : XElem) =>
        let acc2 :=
          (findallT cf "items").foldl
            (fun a its =>
              its.children.foldl (fun a2 item => a2 ++ (textCand item).toList) a)
            acc
        if cf.nameAttr = "" then acc2 else acc2 ++ [cf.nameAttr])
      = fun acc cf =>
          acc ++ (itemsTextsOf cf ++ (if cf.nameAttr = "" then [] else [cf.nameAttr])) := by
    funext acc cf
    have h2 : (findallT cf "items").foldl
        (fun a its =>
          its.children.foldl (fun a2 item => a2 ++ (textCand item).toList) a)
        acc = acc ++ itemsTextsOf cf := by
      have h3 : (fun (a : List String) (its : XElem) =>
            its.children.foldl (fun a2 item => a2 ++ (textCand item).toList) a)
          = fun a its => a ++ its.children.filterMap textCand := by
        funext a its
        rw [foldl_append_opt]
      rw [h3, foldl_append_flat]
      rfl
    simp only [h2]
    by_cases hn : cf.nameAttr = ""
    · simp [hn]
    · simp [hn, List.append_assoc]
  rw [h, foldl_append_flat]
  rfl

theorem walkE_eq (e : XElem) (p : String) :
    walkE e p = descsAt e (curPath p e) ++ walkL e.children (curPath p e) := by
  cases e
  rfl

theorem walkL_nil (p : String) : walkL [] p = [] := rfl

theorem walkL_cons (e : XElem) (es : List XElem) (p : String) :
    walkL (e :: es) p = walkE e p ++ walkL es p := rfl

theorem findOrSet_of_firstIdx_some (p : String) (go : XElem → XElem) (fresh : XElem) :
    ∀ (cs : List XElem) (i : Nat), firstIdx? p cs = some i →
      ∃ c, cs[i]? = some c ∧ findOrSet p go fresh cs = cs.set i (go c) := by
  intro cs
  induction cs with
  | nil => intro i h; simp [firstIdx?] at h
  | cons x cs ih =>
    intro i h
    cases hx : x.tag == p with
    | true =>
      simp only [firstIdx?, hx, if_pos, Option.some.injEq] at h
      subst h
      exact ⟨x, by simp, by simp [findOrSet, hx]⟩
    | false =>
      simp only [firstIdx?, hx, Bool.false_eq_true, if_false] at h
      cases hf : firstIdx? p cs with
      | none => rw [hf] at h; simp at h
      | some j =>
        rw [hf] at h
        simp only [Option.map_some', Option.some.injEq] at h
        subst h
        obtain ⟨c, hc, heq⟩ := ih j hf
        refine ⟨c, by simpa using hc, ?_⟩
        simp [findOrSet, hx, heq]

theorem findOrSet_of_firstIdx_none (p : String) (go : XElem → XElem) (fresh : XElem) :
    ∀ cs, firstIdx? p cs = none → findOrSet p go fresh cs = cs ++ [fresh] := by
  intro cs
  induction cs with
  | nil => intro _; rfl
  | cons x cs ih =>
    intro h
    cases hx : x.tag == p with
    | true => simp [firstIdx?, hx] at h
    | false =>
      simp only [firstIdx?, hx, Bool.false_eq_true, if_false, Option.map_eq_none'] at h
      simp [findOrSet, hx, ih h]

theorem findOrSet_length_ge (p : String) (go : XElem → XElem) (fresh : XElem) :
    ∀ cs, cs.length ≤ (findOrSet p go fresh cs).length := by
  intro cs
  induction cs with
  | nil => simp [findOrSet]
  | cons x cs ih =>
    cases hx : x.tag == p with
    | true => simp [findOrSet, hx]
    | false =>
      simp only [findOrSet, hx, Bool.false_eq_true, if_false, List.length_cons]
      omega

theorem findOrSet_getElem? (p : String) (go : XElem → XElem) (fresh : XElem) :
    ∀ (cs : List XElem) (j : Nat) (c : XElem), cs[j]? = some c →
      (findOrSet p go fresh cs)[j]? = some c ∨
        (findOrSet p go fresh cs)[j]? = some (go c) := by
  intro cs
  induction cs with
  | nil => intro j c h; simp at h
  | cons x cs ih =>
    intro j c h
    cases hx : x.tag == p with
    | true =>
      cases j with
      | zero =>
        simp only [List.getElem?_cons_zero, Option.some.injEq] at h
        subst h
        right; simp [findOrSet, hx]
      | succ j =>
        left
        simp only [List.getElem?_cons_succ] at h
        simp [findOrSet, hx, h]
    | false =>
      cases j with
      | zero =>
        simp only [List.getElem?_cons_zero, Option.some.injEq] at h
        subst h
        left; simp [findOrSet, hx]
      | succ j =>
        simp only [List.getElem?_cons_succ] at h
        obtain h' | h' := ih j c h
        · left; simp [findOrSet, hx, h']
        · right; simp [findOrSet, hx, h']

theorem setPath_frame :
    ∀ (parts : List String) (v : String) (e : XElem) (q : List Nat) (m : XElem),
      nodeAt? e q = some m →
      ∃ m', nodeAt? (setPath e parts v) q = some m' ∧
        m'.tag = m.tag ∧ m'.nameAttr = m.nameAttr ∧
        m.children.length ≤ m'.children.length := by
  intro parts
  induction parts with
  | nil =>
    intro v e q m hq
    cases q with
    | nil =>
      simp only [nodeAt?, Option.some.injEq] at hq
      subst hq
      cases e with
      | mk t n x c =>
        exact ⟨setPath (.mk t n x c) [] v, rfl,
          by simp [setPath, XElem.tag],
          by simp [setPath, XElem.nameAttr],
          by simp [setPath, XElem.children]⟩
    | cons j js =>
      refine ⟨m, ?_, rfl, rfl, le_refl _⟩
      cases e with
      | mk t n x c =>
        simpa only [nodeAt?, setPath, XElem.tag, XElem.nameAttr, XElem.children] using hq
  | cons p ps ih =>
    intro v e q m hq
    cases q with
    | nil =>
      simp only [nodeAt?, Option.some.injEq] at hq
      subst hq
      cases e with
      | mk t n x c =>
        refine ⟨setPath (.mk t n x c) (p :: ps) v, rfl,
          by simp [setPath, XElem.tag],
          by simp [setPath, XElem.nameAttr], ?_⟩
        simp only [setPath, XElem.children]
        exact findOrSet_length_ge _ _ _ _
    | cons j js =>
      simp only [nodeAt?] at hq
      cases hje : e.children[j]? with
      | none => rw [hje] at hq; exact absurd hq (by simp)
      | some c =>
        rw [hje] at hq
        obtain h' | h' :=
          findOrSet_getElem? p (fun c => setPath c ps v)
            (setPath (.mk p "" none []) ps v) e.children j c hje
        · refine ⟨m, ?_, rfl, rfl, le_refl _⟩
          cases e with
          | mk t n x cl =>
            simp only [setPath, nodeAt?, XElem.children] at h' ⊢
            rw [h']
            exact hq
        · obtain ⟨m', hm', ht, hn, hl⟩ := ih v c js m hq
          refine ⟨m', ?_, ht, hn, hl⟩
          cases e with
          | mk t n x cl =>
            simp only [setPath, nodeAt?, XElem.children] at h' ⊢
            rw [h']
            exact hm'

theorem shapeL_eq_map : ∀ l : List XElem, shapeL l = l.map shape
  | [] => rfl
  | e :: es => by rw [shapeL, List.map_cons, shapeL_eq_map es]

theorem lt_of_getElem?_some {α : Type} {l : List α} {i : Nat} {a : α}
    (h : l[i]? = some a) : i < l.length := by
  by_contra hcon
  rw [List.getElem?_eq_none (by omega)] at h
  exact absurd h (by simp)

theorem set_of_getElem? {α : Type} {l : List α} {i : Nat} {a : α}
    (h : l[i]? = some a) : l.set i a = l := by
  apply List.ext_getElem?
  intro n
  by_cases hn : n = i
  · subst hn
    rw [List.getElem?_set_self (lt_of_getElem?_some h), h]
  · rw [List.getElem?_set_ne (by omega)]

theorem getD_of_getElem? {α : Type} {l : List α} {i : Nat} {c d : α}
    (h : l[i]? = some c) : l.getD i d = c := by
  rw [List.getD_eq_getElem?_getD, h]
  rfl

theorem setPath_shape :
    ∀ (parts : List String) (e : XElem) (v : String), pathExists e parts = true →
      shape (setPath e parts v) = shape e := by
  intro parts
  induction parts with
  | nil =>
    intro e v _
    cases e
    rfl
  | cons p ps ih =>
    intro e v hp
    cases hidx : firstIdx? p e.children with
    | none =>
      simp only [pathExists, hidx] at hp
      exact absurd hp (by simp)
    | some i =>
      simp only [pathExists, hidx] at hp
      obtain ⟨c, hci, heq⟩ :=
        findOrSet_of_firstIdx_some p (fun c => setPath c ps v)
          (setPath (.mk p "" none []) ps v) e.children i hidx
      rw [getD_of_getElem? hci] at hp
      cases e with
      | mk t n x cl =>
        simp only [XElem.children] at hci
        simp only [setPath, shape, XElem.children] at heq ⊢
        rw [heq, shapeL_eq_map, List.map_set, ih c v hp, shapeL_eq_map]
        simp only [XElem.tag, XElem.nameAttr]
        congr 1
        apply set_of_getElem?
        rw [List.getElem?_map, hci]
        rfl

theorem setPath_text :
    ∀ (parts : List String) (e : XElem) (v : String), pathExists e parts = true →
      (nodeAt? (setPath e parts v) (idxPath e parts)).map XElem.text = some (some v)
      ∧ ∀ q, q ≠ idxPath e parts →
          (nodeAt? (setPath e parts v) q).map XElem.text
            = (nodeAt? e q).map XElem.text := by
  intro parts
  induction parts with
  | nil =>
    intro e v _
    constructor
    · cases e
      rfl
    · intro q hq
      cases q with
      | nil => exact absurd rfl hq
      | cons j js =>
        cases e
        rfl
  | cons p ps ih =>
    intro e v hp
    cases hidx : firstIdx? p e.children with
    | none =>
      simp only [pathExists, hidx] at hp
      exact absurd hp (by simp)
    | some i =>
      simp only [pathExists, hidx] at hp
      obtain ⟨c, hci, heq⟩ :=
        findOrSet_of_firstIdx_some p (fun c => setPath c ps v)
          (setPath (.mk p "" none []) ps v) e.children i hidx
      rw [getD_of_getElem? hci] at hp
      have hidxPath : idxPath e (p :: ps) = i :: idxPath c ps := by
        simp only [idxPath, hidx]
        rw [getD_of_getElem? hci]
      obtain ⟨ih1, ih2⟩ := ih c v hp
      cases e with
      | mk t n x cl =>
        simp only [XElem.children] at hci
        simp only [setPath, XElem.children] at heq
        rw [hidxPath]
        constructor
        · show (nodeAt? (XElem.mk t n x _) (i :: idxPath c ps)).map XElem.text = _
          simp only [nodeAt?, XElem.children, heq]
          rw [List.getElem?_set_self (lt_of_getElem?_some hci)]
          exact ih1
        · intro q hq
          cases q with
          | nil => rfl
          | cons j js =>
            simp only [nodeAt?, setPath, XElem.children, heq]
            by_cases hj : j = i
            · subst hj
              have hjs : js ≠ idxPath c ps := by
                intro hcon
                exact hq (by rw [hcon])
              rw [List.getElem?_set_self (lt_of_getElem?_some hci), hci]
              exact ih2 js hjs
            · rw [List.getElem?_set_ne (by omega)]

mutual

theorem walkE_noEmit : ∀ (e : XElem) (p : String), subtreeNoEmit e = true → walkE e p = []
  | .mk t n x c, p, h => by
    simp only [subtreeNoEmit, Bool.and_eq_true, bne_iff_ne] at h
    obtain ⟨⟨h1, h2⟩, h3⟩ := h
    rw [walkE_eq]
    simp only [XElem.children]
    rw [walkL_noEmit c _ h3]
    simp only [descsAt, XElem.tag]
    rw [if_neg h1, if_neg h2]
    rfl

theorem walkL_noEmit : ∀ (es : List XElem) (p : String), childrenNoEmit es = true → walkL es p = []
  | [], _, _ => rfl
  | e :: es, p, h => by
    simp only [childrenNoEmit, Bool.and_eq_true] at h
    rw [walkL_cons, walkE_noEmit e p h.1, walkL_noEmit es p h.2]
    rfl

end

theorem walkL_radioChildren :
    ∀ (cs : List XElem) (cur : String), cs.all radioChildOk = true →
      walkL cs cur
        = (cs.filter (fun c => c.tag == tNS ++ "field")).map
            (fun c => fieldDescOf c (curPath cur c)) := by
  intro cs
  induction cs with
  | nil => intro cur _; rfl
  | cons c cs ih =>
    intro cur h
    simp only [List.all_cons, Bool.and_eq_true] at h
    obtain ⟨hc, hcs⟩ := h
    simp only [radioChildOk, Bool.and_eq_true, Bool.or_eq_true, bne_iff_ne] at hc
    obtain ⟨hdisj, hnoEmit⟩ := hc
    rw [walkL_cons, ih cur hcs]
    cases hft : c.tag == tNS ++ "field" with
    | true =>
      have htag : c.tag = tNS ++ "field" := eq_of_beq hft
      have hloc : localTag c.tag = "field" := by rw [htag]; decide
      rw [walkE_eq]
      rw [walkL_noEmit c.children _ hnoEmit]
      simp only [descsAt, hloc, if_pos]
      rw [List.filter_cons_of_pos (by rw [hft]), List.map_cons]
      rfl
    | false =>
      have hsub : subtreeNoEmit c = true := by
        cases c with
        | mk t n x cl =>
          simp only [XElem.tag] at hft
          simp only [XElem.tag, hft, Bool.false_eq_true, false_or] at hdisj
          simp only [XElem.children] at hnoEmit
          simp only [subtreeNoEmit, Bool.and_eq_true, bne_iff_ne]
          exact ⟨⟨hdisj.1, hdisj.2⟩, hnoEmit⟩
      rw [walkE_noEmit c cur hsub]
      rw [List.filter_cons_of_neg (by rw [hft]; simp)]
      rfl

/-- C1 counterexample: the claim says the field kind is the *first* matching
widget tag under a `ui` child, but on a field whose `ui` holds a
`checkButton` followed by a `textEdit` the walker emits kind `"text"`
(the last recognized widget), not the claimed `"checkbox"`. -/
theorem c1_first_widget_cex :
    (walkE twoWidgetField "").head?.map FieldDesc.type = some "text"
    ∧ specFirstWidgetKind twoWidgetField = "checkbox"
    ∧ ("text" : String) ≠ "checkbox" := by
  refine ⟨by decide, by decide, by decide⟩

/-- C1 amended: for every field node the walker emits one descriptor whose
kind is resolved from the *last* recognized widget tag found under its `ui`
children in document order (checkButton, choiceList, dateTimeEdit,
numericEdit, textEdit, imageEdit, signatureEdit, barcode mapping to
checkbox, dropdown, date, numeric, text, image, signature, barcode), and
`"text"` when no recognized widget tag is present. -/
theorem c1_kind_is_last_widget (e : XElem) (p : String) (h : localTag e.tag = "field") :
    walkE e p = fieldDescOf e (curPath p e) :: walkL e.children (curPath p e)
    ∧ (fieldDescOf e (curPath p e)).type = (uiWidgetKinds e).getLastD "text" := by
  constructor
  · rw [walkE_eq]
    simp only [descsAt, h, if_pos]
    rfl
  · show resolveType e = _
    exact resolveType_eq e

/-- C1 witness: the amended statement at a concrete one-widget field. -/
theorem c1_kind_is_last_widget_witness :
    localTag oneWidgetField.tag = "field"
    ∧ walkE oneWidgetField ""
        = fieldDescOf oneWidgetField "G1" :: walkL oneWidgetField.children "G1"
    ∧ (fieldDescOf oneWidgetField "G1").type = (uiWidgetKinds oneWidgetField).getLastD "text" := by
  have h := c1_kind_is_last_widget oneWidgetField "" (by decide)
  exact ⟨by decide, h.1, h.2⟩

/-- C5 counterexample: the claim says the caption is the *first* non-empty
`caption/value/text` descendant text, but on a field with two such texts
`"A"` then `"B"` the walker emits caption `"B"` (the last one). -/
theorem c5_first_caption_cex :
    (walkE twoCaptionField "").head?.map FieldDesc.caption = some "B"
    ∧ specFirstCaption twoCaptionField = "A"
    ∧ ("B" : String) ≠ "A" := by
  refine ⟨by decide, by decide, by decide⟩

/-- C5 amended: for every field node, the emitted descriptor has caption
equal to the *last* `caption/value/text` descendant text that is non-empty
before trimming, trimmed, and tooltip equal to the *last* non-empty
`assist/toolTip` text, trimmed; each is the empty string when no such text
exists. -/
theorem c5_caption_tooltip_last (e : XElem) (p : String) (h : localTag e.tag = "field") :
    walkE e p = fieldDescOf e (curPath p e) :: walkL e.children (curPath p e)
    ∧ (fieldDescOf e (curPath p e)).caption = (capCands e).getLastD ""
    ∧ (fieldDescOf e (curPath p e)).tooltip = (tipCands e).getLastD ""
    ∧ (capCands e = [] → (fieldDescOf e (curPath p e)).caption = "")
    ∧ (tipCands e = [] → (fieldDescOf e (curPath p e)).tooltip = "") := by
  have hcap : (fieldDescOf e (curPath p e)).caption = (capCands e).getLastD "" := by
    show captionOf e = _
    exact captionOf_eq e
  have htip : (fieldDescOf e (curPath p e)).tooltip = (tipCands e).getLastD "" := by
    show tooltipOf e = _
    exact tooltipOf_eq e
  refine ⟨?_, hcap, htip, ?_, ?_⟩
  · rw [walkE_eq]
    simp only [descsAt, h, if_pos]
    rfl
  · intro hnil; rw [hcap, hnil]; rfl
  · intro hnil; rw [htip, hnil]; rfl

/-- C5 witness: the amended caption statement at a concrete field. -/
theorem c5_caption_tooltip_last_witness :
    localTag twoCaptionField.tag = "field"
    ∧ (fieldDescOf twoCaptionField (curPath "" twoCaptionField)).caption
        = (capCands twoCaptionField).getLastD "" := by
  exact ⟨by decide, (c5_caption_tooltip_last twoCaptionField "" (by decide)).2.1⟩

/-- C6: for every exclGroup node the walker emits exactly one descriptor of
kind radio at that node, whose options are built by, for each immediate
`field` child in document order, first appending every truthy `items`
descendant text (trimmed) and then appending the child field name when
non-empty; the spec example `"Sex"` with children `"Male"` (items `"M"`)
and `"Female"` (items `"F"`) yields options `["M","Male","F","Female"]`. -/
theorem c6_radio_options (e : XElem) (p : String) (h : localTag e.tag = "exclGroup") :
    walkE e p = radioDescOf e (curPath p e) :: walkL e.children (curPath p e)
    ∧ (radioDescOf e (curPath p e)).type = "radio"
    ∧ (radioDescOf e (curPath p e)).options
        = (if specRadioOptions e = [] then none else some (specRadioOptions e))
    ∧ specRadioOptions sexGroup = ["M", "Male", "F", "Female"]
    ∧ walkE sexGroup "" = radioDescOf sexGroup "Sex" :: walkL sexGroup.children "Sex"
    ∧ (radioDescOf sexGroup "Sex").options = some ["M", "Male", "F", "Female"] := by
  have hne : localTag e.tag ≠ "field" := by rw [h]; decide
  refine ⟨?_, rfl, ?_, by decide, by decide, by decide⟩
  · rw [walkE_eq]
    simp only [descsAt, h, hne, if_neg, if_pos]
    rfl
  · show (if radioOptionsOf e = [] then none else some (radioOptionsOf e)) = _
    rw [radioOptionsOf_eq]

/-- C6 witness: the statement instantiated at the `"Sex"` group. -/
theorem c6_radio_options_witness :
    localTag sexGroup.tag = "exclGroup"
    ∧ (radioDescOf sexGroup (curPath "" sexGroup)).options
        = (if specRadioOptions sexGroup = [] then none else some (specRadioOptions sexGroup)) := by
  exact ⟨by decide, (c6_radio_options sexGroup "" (by decide)).2.2.1⟩

/-- C8: for every node, `current_path` is parent path `++ "." ++` own name
when both are non-empty, else whichever of the two is non-empty, and the
walker recurses into every child element regardless of tag, passing
`current_path` as the new parent path. -/
theorem c8_current_path (e : XElem) (p : String) :
    curPath p e
      = (if p ≠ "" ∧ e.nameAttr ≠ "" then p ++ "." ++ e.nameAttr
         else if e.nameAttr ≠ "" then e.nameAttr else p)
    ∧ walkE e p = descsAt e (curPath p e) ++ walkL e.children (curPath p e)
    ∧ walkL [] (curPath p e) = []
    ∧ ∀ (c : XElem) (cs : List XElem),
        walkL (c :: cs) (curPath p e) = walkE c (curPath p e) ++ walkL cs (curPath p e) := by
  exact ⟨rfl, walkE_eq e p, rfl, fun c cs => rfl⟩

/-- C10 counterexample: on an exclGroup with one field child that itself
contains a nested field the walker emits 3 descriptors, not the claimed
`1 + n = 2`: recursion emits a descriptor for every descendant field, not
just for the immediate children. -/
theorem c10_count_cex :
    (walkE nestedFieldGroup "").length = 3
    ∧ (findallT nestedFieldGroup "field").length = 1
    ∧ (3 : Nat) ≠ 1 + 1 := by
  refine ⟨by decide, by decide, by decide⟩

/-- C10 amended: for every exclGroup node whose children are
template-namespace fields or non-field, non-group elements, with no further
field or exclGroup nodes strictly below the children, the walker emits
exactly `1 + n` descriptors in pre-order: the radio descriptor first, then
one field descriptor per field child in document order, each resolved on
its own and placed at a path chained under the group path. -/
theorem c10_radio_then_fields (e : XElem) (p : String)
    (h : localTag e.tag = "exclGroup") (hok : e.children.all radioChildOk = true) :
    walkE e p
      = radioDescOf e (curPath p e)
          :: (e.children.filter (fun c => c.tag == tNS ++ "field")).map
               (fun c => fieldDescOf c (curPath (curPath p e) c))
    ∧ (walkE e p).length = 1 + (findallT e "field").length := by
  have hne : localTag e.tag ≠ "field" := by rw [h]; decide
  have hmain : walkE e p
      = radioDescOf e (curPath p e)
          :: (e.children.filter (fun c => c.tag == tNS ++ "field")).map
               (fun c => fieldDescOf c (curPath (curPath p e) c)) := by
    rw [walkE_eq]
    rw [walkL_radioChildren e.children (curPath p e) hok]
    simp only [descsAt, h, hne, if_neg, if_pos]
    rfl
  refine ⟨hmain, ?_⟩
  rw [hmain]
  simp only [List.length_cons, List.length_map, findallT]
  omega

/-- C10 witness: the amended count at a concrete two-field group. -/
theorem c10_radio_then_fields_witness :
    localTag filingGroup.tag = "exclGroup"
    ∧ filingGroup.children.all radioChildOk = true
    ∧ (walkE filingGroup "").length = 1 + (findallT filingGroup "field").length := by
  exact ⟨by decide, by decide,
    (c10_radio_then_fields filingGroup "" (by decide) (by decide)).2⟩

/-- Shared helper: an entry with a non-empty value and a part failing the
safe-name match is recorded as exactly one error and mutates nothing. -/
theorem fillStep_invalid (r : FillResult) (p v : String) (hv : v ≠ "")
    (hbad : (pySplitDot p).all safeFieldPartMatch = false) :
    fillStep r (p, some v)
      = { tree := r.tree, filled := r.filled,
          errors := r.errors ++ [p ++ ": invalid field path characters"] } := by
  simp only [fillStep, hv, if_neg, hbad, Bool.false_eq_true, if_false]

/-- C2 counterexample: the path `"a\n"` has a segment that does not match
`^[A-Za-z][A-Za-z0-9_]*$`, yet the merger records no error, counts the
entry as filled and creates a node for it, because Python `re.match` lets
`$` match before a single trailing newline. -/
theorem c2_invalid_path_cex :
    matchesSafe ("a\n").data = false
    ∧ (fillUpdates emptyData [("a\n", some "X")]).errors = []
    ∧ (fillUpdates emptyData [("a\n", some "X")]).filled = 1
    ∧ ((fillUpdates emptyData [("a\n", some "X")]).tree).children.length = 1 := by
  refine ⟨by decide, by decide, by decide, by decide⟩

/-- C2 amended: for every entry whose path, split on `"."`, has a segment
rejected by the code's safe-name match (the claimed pattern under Python
`re` semantics, which also accepts one trailing newline), the merger
appends exactly `"<path>: invalid field path characters"`, changes no tree
node and no count for that entry, still processes every remaining entry,
and `total` is always the number of entries; the sample map
`form1.FirstName / form1.Bad Name` yields `filled=1, total=2`, that one
error, and exactly the new path `form1/FirstName` with text `"JOHN"`. -/
theorem c2_invalid_path (r : FillResult) (p v : String) (d : XElem)
    (pre post : List Entry) (hv : v ≠ "")
    (hbad : (pySplitDot p).all safeFieldPartMatch = false) :
    fillStep r (p, some v)
      = { tree := r.tree, filled := r.filled,
          errors := r.errors ++ [p ++ ": invalid field path characters"] }
    ∧ fillUpdates d (pre ++ (p, some v) :: post)
        = post.foldl fillStep (fillStep (fillUpdates d pre) (p, some v))
    ∧ totalOf (pre ++ (p, some v) :: post) = pre.length + 1 + post.length
    ∧ fillUpdates emptyData [("form1.FirstName", some "JOHN"), ("form1.Bad Name", some "X")]
        = { tree := .mk (dNS ++ "data") "" none
              [.mk "form1" "" none [.mk "FirstName" "" (some "JOHN") []]],
            filled := 1,
            errors := ["form1.Bad Name: invalid field path characters"] }
    ∧ totalOf [("form1.FirstName", some "JOHN"), ("form1.Bad Name", some "X")] = 2 := by
  refine ⟨fillStep_invalid r p v hv hbad, ?_, ?_, rfl, rfl⟩
  · simp only [fillUpdates, List.foldl_append, List.foldl_cons]
  · simp only [totalOf, List.length_append, List.length_cons]
    omega

/-- C2 witness: the per-entry statement at the `"form1.Bad Name"` entry. -/
theorem c2_invalid_path_witness :
    ("X" : String) ≠ ""
    ∧ (pySplitDot "form1.Bad Name").all safeFieldPartMatch = false
    ∧ fillStep { tree := emptyData, filled := 0, errors := [] } ("form1.Bad Name", some "X")
        = { tree := emptyData, filled := 0,
            errors := ["form1.Bad Name: invalid field path characters"] } := by
  refine ⟨by decide, by decide, ?_⟩
  exact (c2_invalid_path { tree := emptyData, filled := 0, errors := [] }
    "form1.Bad Name" "X" emptyData [] [] (by decide) (by decide)).1

/-- C3: the merger descends segment by segment, at each segment descending
into the first child whose tag equals the segment or appending a fresh
child as the last child; every pre-existing node survives at its position
with its tag and name, children only grow at the end, and merging a path
whose node already exists preserves the whole shape, sets the addressed
leaf text to the value, and changes no other node text. -/
theorem c3_append_only :
    (∀ (e : XElem) (p : String) (rest : List String) (v : String) (i : Nat) (c : XElem),
        firstIdx? p e.children = some i → e.children[i]? = some c →
        setPath e (p :: rest) v
          = .mk e.tag e.nameAttr e.text (e.children.set i (setPath c rest v)))
    ∧ (∀ (e : XElem) (p : String) (rest : List String) (v : String),
        firstIdx? p e.children = none →
        setPath e (p :: rest) v
          = .mk e.tag e.nameAttr e.text (e.children ++ [setPath (.mk p "" none []) rest v]))
    ∧ (∀ (parts : List String) (v : String) (e : XElem) (q : List Nat) (m : XElem),
        nodeAt? e q = some m →
        ∃ m', nodeAt? (setPath e parts v) q = some m' ∧
          m'.tag = m.tag ∧ m'.nameAttr = m.nameAttr ∧
          m.children.length ≤ m'.children.length)
    ∧ (∀ (parts : List String) (e : XElem) (v : String), pathExists e parts = true →
        shape (setPath e parts v) = shape e
        ∧ (nodeAt? (setPath e parts v) (idxPath e parts)).map XElem.text = some (some v)
        ∧ ∀ q, q ≠ idxPath e parts →
            (nodeAt? (setPath e parts v) q).map XElem.text
              = (nodeAt? e q).map XElem.text) := by
  refine ⟨?_, ?_, setPath_frame, ?_⟩
  · intro e p rest v i c hidx hci
    obtain ⟨c', hc', heq⟩ :=
      findOrSet_of_firstIdx_some p (fun c => setPath c rest v)
        (setPath (.mk p "" none []) rest v) e.children i hidx
    rw [hci] at hc'
    obtain rfl : c = c' := Option.some.inj hc'
    cases e with
    | mk t n x cl =>
      simp only [setPath, XElem.children, XElem.tag, XElem.nameAttr, XElem.text] at heq ⊢
      rw [heq]
  · intro e p rest v hidx
    have heq :=
      findOrSet_of_firstIdx_none p (fun c => setPath c rest v)
        (setPath (.mk p "" none []) rest v) e.children hidx
    cases e with
    | mk t n x cl =>
      simp only [setPath, XElem.children, XElem.tag, XElem.nameAttr, XElem.text] at heq ⊢
      rw [heq]
  · intro parts e v hp
    exact ⟨setPath_shape parts e v hp, (setPath_text parts e v hp).1,
      (setPath_text parts e v hp).2⟩

/-- C3 witness: the descend and overwrite statements at a concrete tree. -/
theorem c3_append_only_witness :
    firstIdx? "a" (XElem.mk "d" "" none [XElem.mk "a" "" none []]).children = some 0
    ∧ setPath (XElem.mk "d" "" none [XElem.mk "a" "" none []]) ["a"] "x"
        = XElem.mk "d" "" none [setPath (XElem.mk "a" "" none []) [] "x"]
    ∧ pathExists (XElem.mk "d" "" none [XElem.mk "a" "" none []]) ["a"] = true
    ∧ shape (setPath (XElem.mk "d" "" none [XElem.mk "a" "" none []]) ["a"] "x")
        = shape (XElem.mk "d" "" none [XElem.mk "a" "" none []]) := by
  refine ⟨rfl, ?_, rfl, ?_⟩
  · exact c3_append_only.1 (XElem.mk "d" "" none [XElem.mk "a" "" none []]) "a" [] "x" 0
      (XElem.mk "a" "" none []) rfl rfl
  · exact (c3_append_only.2.2.2 ["a"] (XElem.mk "d" "" none [XElem.mk "a" "" none []])
      "x" rfl).1

/-- C4: merging the same updates into two identical parses of the same
original datasets tree yields identical serialized output and identical
fill statistics both times — the merge-and-serialize pipeline is a pure
function of the parsed tree and the update list. -/
theorem c4_deterministic (t1 t2 : XElem) (u : List Entry) (h : t1 = t2) :
    serializeElem (fillUpdates t1 u).tree = serializeElem (fillUpdates t2 u).tree
    ∧ (fillUpdates t1 u).filled = (fillUpdates t2 u).filled
    ∧ (fillUpdates t1 u).errors = (fillUpdates t2 u).errors := by
  subst h
  exact ⟨rfl, rfl, rfl⟩

/-- C4 witness: determinism at a concrete tree and update list. -/
theorem c4_deterministic_witness :
    emptyData = emptyData
    ∧ serializeElem (fillUpdates emptyData [("form1.A", some "x")]).tree
        = serializeElem (fillUpdates emptyData [("form1.A", some "x")]).tree := by
  exact ⟨rfl, (c4_deterministic emptyData emptyData [("form1.A", some "x")] rfl).1⟩

/-- C7: an entry whose value is absent (`None`) or the empty string is
skipped silently — the loop state (tree, filled, errors) is unchanged, the
remaining entries are processed exactly as if the entry were dropped, and
`total` still counts the entry. -/
theorem c7_empty_value_skip (r : FillResult) (p : String) (v : Option String)
    (h : v = none ∨ v = some "") :
    fillStep r (p, v) = r
    ∧ (∀ (d : XElem) (pre post : List Entry),
        fillUpdates d (pre ++ (p, v) :: post) = fillUpdates d (pre ++ post))
    ∧ (∀ (pre post : List Entry),
        totalOf (pre ++ (p, v) :: post) = pre.length + 1 + post.length) := by
  have hstep : ∀ (r' : FillResult), fillStep r' (p, v) = r' := by
    intro r'
    rcases h with h | h <;> subst h
    · rfl
    · simp [fillStep]
  refine ⟨hstep r, ?_, ?_⟩
  · intro d pre post
    simp [fillUpdates, List.foldl_append, hstep]
  · intro pre post
    simp only [totalOf, List.length_append, List.length_cons]
    omega

/-- C7 witness: skipping the empty-valued entry `"a.b"` on an empty tree. -/
theorem c7_empty_value_skip_witness :
    ((some "" : Option String) = none ∨ (some "" : Option String) = some "")
    ∧ fillStep { tree := emptyData, filled := 0, errors := [] } ("a.b", some "")
        = { tree := emptyData, filled := 0, errors := [] } := by
  exact ⟨Or.inr rfl,
    (c7_empty_value_skip { tree := emptyData, filled := 0, errors := [] } "a.b"
      (some "") (Or.inr rfl)).1⟩

/-- C9: an entry with a non-empty value whose path is the empty string or
contains an empty segment (as in `"a..b"` or a leading or trailing dot) is
recorded as the invalid-path-characters error and the loop state is
otherwise unchanged, because splitting on `"."` yields an empty segment
that fails the safe-name pattern. -/
theorem c9_empty_segment (r : FillResult) (p : String) (v : String)
    (hv : v ≠ "") (h : p = "" ∨ "" ∈ pySplitDot p) :
    fillStep r (p, some v)
      = { tree := r.tree, filled := r.filled,
          errors := r.errors ++ [p ++ ": invalid field path characters"] } := by
  apply fillStep_invalid r p v hv
  rcases h with h | h
  · subst h
    decide
  · exact List.all_eq_false.mpr ⟨"", h, by decide⟩

/-- C9 witness: the statement at the path `"a..b"` on an empty tree. -/
theorem c9_empty_segment_witness :
    ("X" : String) ≠ ""
    ∧ (("a..b" : String) = "" ∨ "" ∈ pySplitDot "a..b")
    ∧ fillStep { tree := emptyData, filled := 0, errors := [] } ("a..b", some "X")
        = { tree := emptyData, filled := 0,
            errors := ["a..b: invalid field path characters"] } := by
  refine ⟨by decide, Or.inr (by decide), ?_⟩
  exact c9_empty_segment { tree := emptyData, filled := 0, errors := [] } "a..b" "X"
    (by decide) (Or.inr (by decide))

end Xfa
